import Mathlib

/-!
Verification development for the openclaw-nyne client plugin.

The definitions below are a shallow embedding of the plugin's core modules:

* `config.ts` — `resolveEnvVars`, `parseConfig` (credential/config resolver);
* `client.ts` — `NyneClient.request` (transport), `NyneClient.waitForResult`
  (poller) and the per-kind operation methods (`searchPeople`, `enrichPerson`,
  `getPersonInterests`, `searchArticles`, `deepResearch`,
  `competitorEngagements`, `getInteractions`).

Asynchronous network effects are modelled by passing the remote responses in
explicitly: transport calls take the `HttpResponse` the wire would deliver,
and the poll loop takes an oracle `Nat → HttpResponse` giving the response to
the i-th poll request.  Sleeping is modelled by accounting the total slept
milliseconds in the outcome, and each poll GET is counted, so timing policy
and "was the poller entered" are observable.  The thrown `Error` values of
the TypeScript code are modelled by the `ClientError` inductive together
with `ClientError.message`, which builds exactly the message strings the
code builds.
-/

namespace Nyne

/- JSON values, as delivered by `response.json()`.  Arrays and objects are
given by the mutually inductive `JsonArr`/`JsonObj` so that all functions on
them are structurally recursive.  Object field lists model parsed JSON, so
keys are assumed distinct (JSON.parse keeps one binding per key). -/
mutual

inductive Json where
  | null : Json
  | bool : Bool → Json
  | num : Int → Json
  | str : String → Json
  | arr : JsonArr → Json
  | obj : JsonObj → Json
deriving DecidableEq

inductive JsonArr where
  | nil : JsonArr
  | cons : Json → JsonArr → JsonArr
deriving DecidableEq

inductive JsonObj where
  | nil : JsonObj
  | cons : String → Json → JsonObj → JsonObj
deriving DecidableEq

end

/-- Field lookup on a JSON object list; first binding wins. -/
def JsonObj.find : JsonObj → String → Option Json
  | .nil, _ => none
  | .cons k v rest, key => if k = key then some v else JsonObj.find rest key

/-- JavaScript property access `v?.key`: reading a property off a non-object
(or a missing key) yields `undefined`, modelled as `none`. -/
def Json.lookup : Json → String → Option Json
  | .obj fields, k => fields.find k
  | _, _ => none

/-- JavaScript truthiness of a JSON value (`if (x)`): `undefined`/`null`,
`false`, `0` and the empty string are falsy, everything else is truthy. -/
def jsTruthy : Json → Bool
  | .null => false
  | .bool b => b
  | .num n => n != 0
  | .str s => s != ""
  | .arr _ => true
  | .obj _ => true

/-- Strict equality `v === lit` between a JSON value and a string literal. -/
def isStrEq (v : Json) (t : String) : Bool :=
  match v with
  | .str s => s == t
  | _ => false

/-- JSON string escaping used by `JSON.stringify` for the characters that
occur in this development (quote, backslash and the common control
characters); other characters serialize as themselves. -/
def escapeJsonChar (c : Char) : List Char :=
  if c = '"' then ['\\', '"']
  else if c = '\\' then ['\\', '\\']
  else if c = '\n' then ['\\', 'n']
  else if c = '\t' then ['\\', 't']
  else if c = '\r' then ['\\', 'r']
  else [c]

def escapeJson (s : String) : String :=
  String.mk (s.data.foldr (fun c acc => escapeJsonChar c ++ acc) [])

/- `JSON.stringify` (no indentation): fields in object order, no spaces.
Numbers are modelled as integers. -/
mutual

def Json.stringify : Json → String
  | .null => "null"
  | .bool b => cond b "true" "false"
  | .num n => toString n
  | .str s => "\"" ++ escapeJson s ++ "\""
  | .arr xs => "[" ++ JsonArr.stringifyElems xs ++ "]"
  | .obj fs => "\x7b" ++ JsonObj.stringifyFields fs ++ "\x7d"

def JsonArr.stringifyElems : JsonArr → String
  | .nil => ""
  | .cons x .nil => Json.stringify x
  | .cons x (.cons y rest) =>
      Json.stringify x ++ "," ++ JsonArr.stringifyElems (.cons y rest)

def JsonObj.stringifyFields : JsonObj → String
  | .nil => ""
  | .cons k v .nil => "\"" ++ escapeJson k ++ "\":" ++ Json.stringify v
  | .cons k v (.cons k2 v2 rest) =>
      "\"" ++ escapeJson k ++ "\":" ++ Json.stringify v ++ "," ++
        JsonObj.stringifyFields (.cons k2 v2 rest)

end

/- JavaScript string coercion `String(v)` / template interpolation of a
JSON value (arrays join their elements with commas, objects print as
`[object Object]`). -/
mutual

def jsToString : Json → String
  | .null => "null"
  | .bool b => cond b "true" "false"
  | .num n => toString n
  | .str s => s
  | .arr xs => jsArrToString xs
  | .obj _ => "[object Object]"

def jsArrToString : JsonArr → String
  | .nil => ""
  | .cons x .nil => jsToString x
  | .cons x (.cons y rest) => jsToString x ++ "," ++ jsArrToString (.cons y rest)

end

/-- Substring test on character lists (needle occurs contiguously in hay). -/
def isSubOf (needle : List Char) : List Char → Bool
  | [] => needle.isEmpty
  | x :: xs => needle.isPrefixOf (x :: xs) || isSubOf needle xs

/-! ## Credential/config resolver (`config.ts`) -/

/-- The resolved plugin configuration (`NyneConfig` in `config.ts`).
`defaultPollTimeout` is stored in milliseconds. -/
structure NyneConfig where
  apiKey : String
  apiSecret : String
  debug : Bool
  defaultPollTimeout : Nat
deriving DecidableEq

/-- Raw configuration input to `parseConfig`.  `none` models an absent (or
`null`/`undefined`) field, which is exactly what `??` falls through on.
Fields are modelled at their declared schema types (strings, boolean,
number of seconds). -/
structure RawConfig where
  apiKey : Option String
  apiSecret : Option String
  debug : Option Bool
  defaultPollTimeout : Option Nat
deriving DecidableEq

/-- A word character of the regex class `\w`: ASCII letter, digit or
underscore. -/
def isWordChar (c : Char) : Bool :=
  c.isAlpha || c.isDigit || c = '_'

/-- Scanner state for `resolveEnvVars`: scanning normally, having just seen
`$`, or inside `$\x7b...` with the name characters buffered. -/
inductive ScanState where
  | normal : ScanState
  | dollar : ScanState
  | inside : List Char → ScanState

/-- Character-by-character implementation of the global regex replacement
`value.replace(/\$\x7b(\w+)\x7d/g, (_m, v) => env[v] ?? "")` from
`resolveEnvVars` in `config.ts`: each placeholder `$\x7bNAME\x7d` (with
`NAME` a nonempty run of word characters) is replaced by the environment
value of `NAME`, or the empty string when the variable is unset; all other
text is kept; replacement text is not rescanned. -/
def substEnv (env : String → Option String) : ScanState → List Char → List Char
  | .normal, [] => []
  | .dollar, [] => ['$']
  | .inside buf, [] => '$' :: '\x7b' :: buf
  | .normal, c :: tl =>
      if c = '$' then substEnv env .dollar tl
      else c :: substEnv env .normal tl
  | .dollar, c :: tl =>
      if c = '\x7b' then substEnv env (.inside []) tl
      else if c = '$' then '$' :: substEnv env .dollar tl
      else '$' :: c :: substEnv env .normal tl
  | .inside buf, c :: tl =>
      if isWordChar c then substEnv env (.inside (buf ++ [c])) tl
      else if c = '\x7d' then
        if buf = [] then '$' :: '\x7b' :: '\x7d' :: substEnv env .normal tl
        else ((env (String.mk buf)).getD "").data ++ substEnv env .normal tl
      else if c = '$' then ('$' :: '\x7b' :: buf) ++ substEnv env .dollar tl
      else ('$' :: '\x7b' :: buf) ++ c :: substEnv env .normal tl

/-- Function `resolveEnvVars` from `config.ts`: substitute `$\x7bVAR\x7d`
placeholders from the process environment `env`. -/
def resolveEnvVars (env : String → Option String) (value : String) : String :=
  String.mk (substEnv env .normal value.data)

/-- The errors thrown by the plugin (`throw new Error(...)` sites), with the
data each message is built from. -/
inductive ClientError where
  | nonJson : Nat → String → ClientError
  | apiError : Nat → String → ClientError
  | pollTimeout : String → String → ClientError
  | missingCredentials : ClientError
deriving DecidableEq

/-- The exact message strings the code passes to `new Error`. -/
def ClientError.message : ClientError → String
  | .nonJson status excerpt =>
      "API returned non-JSON response (" ++ toString status ++ "): " ++ excerpt
  | .apiError status body =>
      "API Error (" ++ toString status ++ "): " ++ body
  | .pollTimeout kind requestId =>
      "Timed out waiting for " ++ kind ++ " result (request_id=" ++ requestId ++ ")"
  | .missingCredentials =>
      "Nyne API key and secret are required. Run \x27openclaw openclaw-nyne setup\x27 to configure."

/-- Function `parseConfig` from `config.ts`.  `env` is the process environment.  Per
credential: explicit config value, else (`??`) the same-named environment
variable, else the empty string; the winner then has its placeholders
substituted by `resolveEnvVars`.  Throws (returns) `MissingCredentials`
when either resolved credential is empty (`!apiKey || !apiSecret`).
`debug` is `cfg.debug === true`; `defaultPollTimeout` is seconds times 1000
when a number was configured, else 60000. -/
def parseConfig (env : String → Option String) (raw : RawConfig) :
    Except ClientError NyneConfig :=
  let apiKey := resolveEnvVars env
    (raw.apiKey.getD ((env "NYNE_API_KEY").getD ""))
  let apiSecret := resolveEnvVars env
    (raw.apiSecret.getD ((env "NYNE_API_SECRET").getD ""))
  if apiKey = "" ∨ apiSecret = "" then
    .error .missingCredentials
  else
    .ok ⟨apiKey, apiSecret, raw.debug == some true,
      match raw.defaultPollTimeout with
      | some n => n * 1000
      | none => 60000⟩

/-! ## Transport (`NyneClient.request`)

The error branch of `request` redacts credentials from the serialized body
with `errorMsg.replace(new RegExp(credential, "g"), "[REDACTED]")`: the
credential string is used as an ECMAScript regular-expression *pattern*.
We model the fragment of ECMAScript regex semantics these patterns can
exercise when the credential consists of ordinary characters and `+`
quantifiers: every non-metacharacter is a literal atom and `c+` is a greedy
one-or-more repetition of `c`.  Patterns containing any other
metacharacter are outside the modelled fragment (`parseAtoms` returns
`none`, and `redact` leaves such text unmodelled, returning it unchanged);
no theorem below concerns such patterns. -/

/-- ECMAScript regular-expression metacharacters (pattern syntax
characters). -/
def isRegexMeta (c : Char) : Bool :=
  c = '^' || c = '$' || c = '\\' || c = '.' || c = '*' || c = '+' || c = '?' ||
  c = '(' || c = ')' || c = '[' || c = ']' || c = '\x7b' || c = '\x7d' || c = '|'

/-- An atom of the modelled regex fragment: a literal character, or a
greedy one-or-more repetition of a character. -/
inductive RAtom where
  | lit : Char → RAtom
  | plus : Char → RAtom
deriving DecidableEq

/-- Parse a pattern string of the modelled fragment: a non-meta character
followed by `+` becomes `RAtom.plus`, a non-meta character alone becomes
`RAtom.lit`; any other metacharacter, or a `+` with nothing to repeat
(a syntax error in ECMAScript), is outside the fragment. -/
def parseAtoms : List Char → Option (List RAtom)
  | [] => some []
  | [c] =>
      if isRegexMeta c && !(c = '+') then none
      else if c = '+' then none
      else some [RAtom.lit c]
  | c :: d :: tl2 =>
      if isRegexMeta c && !(c = '+') then none
      else if c = '+' then none
      else if d = '+' then (parseAtoms tl2).map (fun as => RAtom.plus c :: as)
      else (parseAtoms (d :: tl2)).map (fun as => RAtom.lit c :: as)

/-- Match a sequence of atoms against a prefix of `s`, returning the number
of characters consumed.  The `plus` case prefers consuming more characters
(greedy) and backtracks to the shorter consumption on failure, which is the
ECMAScript backtracking order. -/
def matchAtoms : List RAtom → List Char → Option Nat
  | [], _ => some 0
  | _ :: _, [] => none
  | .lit c :: as, x :: xs =>
      if x = c then (matchAtoms as xs).map (· + 1) else none
  | .plus c :: as, x :: xs =>
      if x = c then
        match matchAtoms (.plus c :: as) xs with
        | some n => some (n + 1)
        | none => (matchAtoms as xs).map (· + 1)
      else none

/-- Global regex replacement `text.replace(re, marker)` with the `g` flag:
scan left to right, replace each leftmost match and continue after it (an
empty match inserts the marker and advances one character, as the `g` flag
does).  `fuel` is structural fuel; `text.length + 1` steps always
suffice because every step consumes at least one character. -/
def replaceScanF (atoms : List RAtom) (marker : List Char) :
    Nat → List Char → List Char
  | 0, s => s
  | _ + 1, [] =>
      match matchAtoms atoms [] with
      | some _ => marker
      | none => []
  | fuel + 1, x :: xs =>
      match matchAtoms atoms (x :: xs) with
      | some 0 => marker ++ x :: replaceScanF atoms marker fuel xs
      | some (n + 1) => marker ++ replaceScanF atoms marker fuel (List.drop n xs)
      | none => x :: replaceScanF atoms marker fuel xs

/-- Replacement `text.replace(new RegExp(pattern, "g"), marker)` for patterns of the
modelled fragment. -/
def replaceRegexAll (pattern marker text : List Char) : Option (List Char) :=
  (parseAtoms pattern).map
    (fun atoms => replaceScanF atoms marker (text.length + 1) text)

/-- One redaction pass from `NyneClient.request`:
`text.replace(new RegExp(cred, "g"), "[REDACTED]")`.  Patterns outside the
modelled regex fragment are left unmodelled (the text is returned
unchanged; no theorem relies on that case). -/
def redact (cred text : String) : String :=
  match replaceRegexAll cred.data ("[REDACTED]".data) text.data with
  | some r => String.mk r
  | none => text

/-- Literal global replacement, following the specification's words: every
verbatim occurrence of `pat` in the text is replaced by the marker,
leftmost first, continuing after each replacement.  Written with the same
fuel pattern as `replaceScanF` so the two can be compared. -/
def replaceLitF (pat marker : List Char) : Nat → List Char → List Char
  | 0, s => s
  | _ + 1, [] => if pat = [] then marker else []
  | fuel + 1, x :: xs =>
      if pat = [] then marker ++ x :: replaceLitF pat marker fuel xs
      else if pat.isPrefixOf (x :: xs) then
        marker ++ replaceLitF pat marker fuel (List.drop (pat.length - 1) xs)
      else x :: replaceLitF pat marker fuel xs

/-- Literal global replacement on strings (specification-side definition,
for comparison with the code's regex-based `redact`). -/
def replaceAllLit (pat marker text : String) : String :=
  String.mk (replaceLitF pat.data marker.data (text.data.length + 1) text.data)

/-- An HTTP response as observed by `request`: `fetch` status, declared
content type, and the body.  `bodyText` models `await response.text()` and
`bodyJson` models `await response.json()`; on an actual response both view
the same bytes, but only one of them is ever consumed on each branch. -/
structure HttpResponse where
  status : Nat
  contentType : Option String
  bodyText : String
  bodyJson : Json

/-- The content-type guard `contentType?.includes("application/json")`:
a missing header is not JSON. -/
def contentTypeHasJson : Option String → Bool
  | none => false
  | some s => isSubOf "application/json".data s.data

/-- Predicate `response.ok` of `fetch`: status in [200, 300). -/
def fetchOk (status : Nat) : Bool :=
  decide (200 ≤ status) && decide (status < 300)

/-- Excerpt `text.substring(0, 200)`. -/
def takeExcerpt (s : String) : String :=
  String.mk (s.data.take 200)

/-- Method `NyneClient.request` from `client.ts`, given the response the wire
delivers: a non-JSON declared content type fails with the non-JSON error
carrying the status and a 200-character excerpt of the body text; then the
body is parsed and, if the status is not ok, the call fails with an API
error carrying the serialized body with the API key and then the API
secret regex-replaced by `[REDACTED]`; otherwise the parsed body is
returned. -/
def request (cfg : NyneConfig) (resp : HttpResponse) : Except ClientError Json :=
  if contentTypeHasJson resp.contentType = false then
    .error (.nonJson resp.status (takeExcerpt resp.bodyText))
  else if fetchOk resp.status = false then
    .error (.apiError resp.status
      (redact cfg.apiSecret (redact cfg.apiKey resp.bodyJson.stringify)))
  else
    .ok resp.bodyJson

/-! ## Poller (`NyneClient.waitForResult`) -/

/-- The optional `{ intervalMs?, maxAttempts? }` argument of
`waitForResult`. -/
structure PollOptions where
  intervalMs : Option Nat
  maxAttempts : Option Nat

instance {ε α : Type} [DecidableEq ε] [DecidableEq α] :
    DecidableEq (Except ε α) := fun a b =>
  match a, b with
  | .ok x, .ok y =>
      if h : x = y then .isTrue (by rw [h]) else .isFalse (fun hh => h (Except.ok.inj hh))
  | .error x, .error y =>
      if h : x = y then .isTrue (by rw [h]) else .isFalse (fun hh => h (Except.error.inj hh))
  | .ok _, .error _ => .isFalse (fun hh => Except.noConfusion hh)
  | .error _, .ok _ => .isFalse (fun hh => Except.noConfusion hh)

/-- Observable outcome of a poll loop (or of a whole operation): the value
returned or error thrown, the number of poll GET requests issued, and the
total milliseconds spent in `delay(intervalMs)`. -/
structure OpOutcome where
  result : Except ClientError Json
  polled : Nat
  sleptMs : Nat
deriving DecidableEq

/-- Extraction `data?.status` of a poll response `res`. -/
def statusOf (res : Json) : Option Json :=
  match res.lookup "data" with
  | some d => d.lookup "status"
  | none => none

/-- The loop's return guard
`status && status !== "queued" && status !== "processing" && status !== "pending"`:
the response is terminal when its extracted status is present, truthy, and
not strictly equal to any of the three in-flight strings. -/
def isTerminalRes (res : Json) : Bool :=
  match statusOf res with
  | none => false
  | some s =>
      jsTruthy s && !(isStrEq s "queued") && !(isStrEq s "processing") &&
        !(isStrEq s "pending")

/-- The fixed kind-to-endpoint table of `waitForResult`. -/
def endpointMap : List (String × String) :=
  [("search", "/person/search"),
   ("enrichment", "/person/enrichment"),
   ("interests", "/person/interests"),
   ("articlesearch", "/person/articlesearch"),
   ("deep-research", "/person/deep-research"),
   ("competitor-engagements", "/person/competitor-engagements"),
   ("interactions", "/person/interactions")]

/-- The URL a poll GET is issued to:
`endpointMap[kind]` plus `?request_id=` and the id (an unknown kind would
interpolate as `undefined`). -/
def pollUrl (kind requestId : String) : String :=
  ((endpointMap.lookup kind).getD "undefined") ++ "?request_id=" ++ requestId

/-- The `for (let attempt = 0; attempt < maxAttempts; attempt++)` body of
`waitForResult`, on the remaining attempt budget.  `oracle i` is the HTTP
response the wire delivers to the i-th poll GET (a GET to
`pollUrl kind requestId`).  Each iteration issues one transport call
(errors from it propagate), returns the full response if it is terminal,
and otherwise sleeps `intervalMs` and continues; an exhausted budget throws
the timeout error naming the kind and request id. -/
def pollLoop (cfg : NyneConfig) (oracle : Nat → HttpResponse)
    (kind requestId : String) (intervalMs : Nat) (attempt : Nat) :
    Nat → OpOutcome
  | 0 => ⟨.error (.pollTimeout kind requestId), 0, 0⟩
  | remaining + 1 =>
      match request cfg (oracle attempt) with
      | .error e => ⟨.error e, 1, 0⟩
      | .ok res =>
          if isTerminalRes res then ⟨.ok res, 1, 0⟩
          else
            let rest := pollLoop cfg oracle kind requestId intervalMs
              (attempt + 1) remaining
            ⟨rest.result, rest.polled + 1, intervalMs + rest.sleptMs⟩

/-- Method `NyneClient.waitForResult`: interval defaults to 2000 ms, attempt
budget defaults to `Math.ceil(defaultPollTimeout / intervalMs)`, then the
poll loop runs from attempt 0. -/
def waitForResult (cfg : NyneConfig) (oracle : Nat → HttpResponse)
    (requestId kind : String) (options : Option PollOptions) : OpOutcome :=
  let intervalMs := (options.bind PollOptions.intervalMs).getD 2000
  let maxAttempts := (options.bind PollOptions.maxAttempts).getD
    ((cfg.defaultPollTimeout + intervalMs - 1) / intervalMs)
  pollLoop cfg oracle kind requestId intervalMs 0 maxAttempts

/-! ## Operation façade

Each operation submits a POST (the response the wire delivers to it is
passed in as `submitResp`), reads `request_id` out of the submission
response's `data` mapping, returns the submission response unchanged when
that id is falsy (`if (!requestId) return postRes`), and otherwise drives
the poller (whose GET responses come from `pollOracle`). -/

/-- Extraction `(postRes.data as Record<string, unknown>)?.request_id`, post-filtered
by the `if (!requestId)` truthiness guard: `some` exactly when the loop
will be entered. -/
def requestIdOf (res : Json) : Option Json :=
  match res.lookup "data" with
  | some d =>
      match d.lookup "request_id" with
      | some v => if jsTruthy v then some v else none
      | none => none
  | none => none

/-- Extraction `res.data?.request_id` with no truthiness filtering (present or not). -/
def dataRequestId (res : Json) : Option Json :=
  match res.lookup "data" with
  | some d => d.lookup "request_id"
  | none => none

/-- Shared submit-then-poll shape of the façade methods. -/
def submitThenPoll (cfg : NyneConfig) (submitResp : HttpResponse)
    (pollOracle : Nat → HttpResponse) (kind : String)
    (options : Option PollOptions) : OpOutcome :=
  match request cfg submitResp with
  | .error e => ⟨.error e, 0, 0⟩
  | .ok postRes =>
      match requestIdOf postRes with
      | none => ⟨.ok postRes, 0, 0⟩
      | some rid => waitForResult cfg pollOracle (jsToString rid) kind options

/-- Method `NyneClient.searchPeople` (params pass through to the POST body
unchanged; the body does not affect the observable outcome, which is
determined by the wire responses). -/
def searchPeople (cfg : NyneConfig) (submitResp : HttpResponse)
    (pollOracle : Nat → HttpResponse) : OpOutcome :=
  submitThenPoll cfg submitResp pollOracle "search" none

/-- Parameters of `NyneClient.enrichPerson`; `none` models an absent key.
`newsfeed` (a string or string array) is carried as a JSON value. -/
structure EnrichParams where
  email : Option String
  linkedin_url : Option String
  phone : Option String
  social_media_url : Option String
  newsfeed : Option Json
  lite_enrich : Option Bool
deriving DecidableEq

/-- JavaScript truthiness of an optional string parameter: present and
nonempty. -/
def truthyStr : Option String → Bool
  | none => false
  | some s => s != ""

/-- The body built by `enrichPerson`: a copy of the params, except that
when `linkedin_url` is truthy and `social_media_url` is falsy, the value
is moved onto `social_media_url` and the `linkedin_url` key is deleted. -/
def enrichBody (p : EnrichParams) : EnrichParams :=
  if truthyStr p.linkedin_url && !(truthyStr p.social_media_url) then
    ⟨p.email, none, p.phone, p.linkedin_url, p.newsfeed, p.lite_enrich⟩
  else p

/-- Method `NyneClient.enrichPerson`: builds `enrichBody params`, POSTs it (`net`
gives the wire's response to that body), then submit-then-poll. -/
def enrichPerson (cfg : NyneConfig) (params : EnrichParams)
    (net : EnrichParams → HttpResponse) (pollOracle : Nat → HttpResponse) :
    OpOutcome :=
  submitThenPoll cfg (net (enrichBody params)) pollOracle "enrichment" none

/-- Method `NyneClient.getPersonInterests`. -/
def getPersonInterests (cfg : NyneConfig) (submitResp : HttpResponse)
    (pollOracle : Nat → HttpResponse) : OpOutcome :=
  submitThenPoll cfg submitResp pollOracle "interests" none

/-- Method `NyneClient.searchArticles`. -/
def searchArticles (cfg : NyneConfig) (submitResp : HttpResponse)
    (pollOracle : Nat → HttpResponse) : OpOutcome :=
  submitThenPoll cfg submitResp pollOracle "articlesearch" none

/-- Method `NyneClient.deepResearch`: same shape, but the poller is driven with
the explicit override `{ intervalMs: 5000, maxAttempts: 120 }`. -/
def deepResearch (cfg : NyneConfig) (submitResp : HttpResponse)
    (pollOracle : Nat → HttpResponse) : OpOutcome :=
  submitThenPoll cfg submitResp pollOracle "deep-research"
    (some ⟨some 5000, some 120⟩)

/-- Method `NyneClient.competitorEngagements`. -/
def competitorEngagements (cfg : NyneConfig) (submitResp : HttpResponse)
    (pollOracle : Nat → HttpResponse) : OpOutcome :=
  submitThenPoll cfg submitResp pollOracle "competitor-engagements" none

/-- Method `NyneClient.getInteractions`. -/
def getInteractions (cfg : NyneConfig) (submitResp : HttpResponse)
    (pollOracle : Nat → HttpResponse) : OpOutcome :=
  submitThenPoll cfg submitResp pollOracle "interactions" none

/-- A transport call that came back ok with a response the loop's guard
does not treat as terminal (the "keep polling" case of one iteration). -/
def okNonTerminal (e : Except ClientError Json) : Bool :=
  match e with
  | .ok j => !(isTerminalRes j)
  | .error _ => false

/-- Shared concrete sample data for the witnesses below. -/
def sampleCfg : NyneConfig := ⟨"key123", "sec456", false, 60000⟩

/-- A 200 JSON response whose data mapping carries an in-flight status. -/
def processingResp : HttpResponse :=
  ⟨200, some "application/json", "",
    .obj (.cons "data" (.obj (.cons "status" (.str "processing") .nil)) .nil)⟩

/-- A 200 JSON response whose data mapping carries a terminal status. -/
def completedResp : HttpResponse :=
  ⟨200, some "application/json", "",
    .obj (.cons "data" (.obj (.cons "status" (.str "completed") .nil)) .nil)⟩

/-- A 200 JSON response whose data mapping has no `status` key at all. -/
def noStatusResp : HttpResponse :=
  ⟨200, some "application/json", "",
    .obj (.cons "data" (.obj (.cons "result" (.str "done") .nil)) .nil)⟩

/-- A process environment binding only `NYNE_API_KEY`. -/
def envKeyed : String → Option String :=
  fun n => if n = "NYNE_API_KEY" then some "abc" else none

/-- A raw configuration whose apiKey is the placeholder for
`NYNE_API_KEY`. -/
def rawPlaceholder : RawConfig :=
  ⟨some "$\x7bNYNE_API_KEY\x7d", some "sec", none, none⟩

/-! ## Helper lemmas -/

theorem string_data_append (s t : String) : (s ++ t).data = s.data ++ t.data := by
  cases s; cases t; rfl

theorem isPrefixOf_append_self : ∀ (p r : List Char), p.isPrefixOf (p ++ r) = true
  | [], r => by cases r <;> rfl
  | c :: p, r => by
      show ((c == c) && p.isPrefixOf (p ++ r)) = true
      rw [beq_self_eq_true, isPrefixOf_append_self p r]
      rfl

theorem isSubOf_append_middle :
    ∀ (a p b : List Char), isSubOf p (a ++ p ++ b) = true
  | [], p, b => by
      cases p with
      | nil =>
          cases b with
          | nil => rfl
          | cons x xs => rfl
      | cons c cs =>
          show isSubOf (c :: cs) (c :: (cs ++ b)) = true
          show ((c :: cs).isPrefixOf (c :: (cs ++ b)) || isSubOf (c :: cs) (cs ++ b)) = true
          have hpre : (c :: cs).isPrefixOf (c :: (cs ++ b)) = true := by
            have h := isPrefixOf_append_self (c :: cs) b
            rwa [List.cons_append] at h
          rw [hpre]
          rfl
  | x :: a, p, b => by
      show (p.isPrefixOf (x :: (a ++ p ++ b)) || isSubOf p (a ++ p ++ b)) = true
      rw [isSubOf_append_middle a p b, Bool.or_true]

theorem requestIdOf_of_dataRequestId_none (res : Json)
    (h : dataRequestId res = none) : requestIdOf res = none := by
  unfold dataRequestId at h
  unfold requestIdOf
  cases hd : res.lookup "data" with
  | none => rfl
  | some d =>
      rw [hd] at h
      have h2 : d.lookup "request_id" = none := h
      show (match d.lookup "request_id" with
        | some v => if jsTruthy v then some v else none
        | none => none) = none
      rw [h2]

theorem pollLoop_exhaust (cfg : NyneConfig) (oracle : Nat → HttpResponse)
    (kind rid : String) (intervalMs : Nat) :
    ∀ (n a : Nat),
      (∀ i, i < n → okNonTerminal (request cfg (oracle (a + i))) = true) →
      pollLoop cfg oracle kind rid intervalMs a n =
        ⟨.error (.pollTimeout kind rid), n, n * intervalMs⟩
  | 0, _, _ => by simp [pollLoop]
  | n + 1, a, h => by
      have h0 := h 0 (Nat.succ_pos n)
      rw [Nat.add_zero] at h0
      cases hr : request cfg (oracle a) with
      | error e => rw [hr] at h0; simp [okNonTerminal] at h0
      | ok res =>
          rw [hr] at h0
          have hterm : isTerminalRes res = false := by
            simp [okNonTerminal] at h0
            exact h0
          have ih := pollLoop_exhaust cfg oracle kind rid intervalMs n (a + 1)
            (fun i hi => by
              have := h (i + 1) (Nat.succ_lt_succ hi)
              rwa [show a + (i + 1) = a + 1 + i by omega] at this)
          simp only [pollLoop, hr, hterm, Bool.false_eq_true, if_false, ih]
          have : intervalMs + n * intervalMs = (n + 1) * intervalMs := by ring
          rw [this]

theorem parseAtoms_all_lit :
    ∀ (pat : List Char), (∀ c ∈ pat, isRegexMeta c = false) →
      parseAtoms pat = some (pat.map RAtom.lit)
  | [], _ => rfl
  | [c], h => by
      have hc : isRegexMeta c = false := h c (List.mem_cons_self c [])
      have hcp : ¬(c = '+') := fun hh => by
        rw [hh] at hc; exact absurd hc (by decide)
      simp [parseAtoms, hc, hcp]
  | c :: d :: tl2, h => by
      have hc : isRegexMeta c = false := h c (List.mem_cons_self c (d :: tl2))
      have hd : isRegexMeta d = false :=
        h d (List.mem_cons_of_mem c (List.mem_cons_self d tl2))
      have hcp : ¬(c = '+') := fun hh => by
        rw [hh] at hc; exact absurd hc (by decide)
      have hdp : ¬(d = '+') := fun hh => by
        rw [hh] at hd; exact absurd hd (by decide)
      have ih := parseAtoms_all_lit (d :: tl2)
        (fun x hx => h x (List.mem_cons_of_mem c hx))
      simp [parseAtoms, hc, hcp, hdp, ih]

theorem matchAtoms_map_lit :
    ∀ (pat s : List Char),
      matchAtoms (pat.map RAtom.lit) s =
        if pat.isPrefixOf s then some pat.length else none
  | [], s => by cases s <;> simp [matchAtoms, List.isPrefixOf]
  | p :: ps, [] => by simp [matchAtoms, List.isPrefixOf]
  | p :: ps, x :: xs => by
      have ih := matchAtoms_map_lit ps xs
      show (if x = p then (matchAtoms (ps.map RAtom.lit) xs).map (· + 1) else none) =
        if ((p == x) && ps.isPrefixOf xs) = true then some (p :: ps).length else none
      by_cases hx : x = p
      · subst hx
        rw [if_pos rfl, beq_self_eq_true, Bool.true_and, ih]
        by_cases hp : ps.isPrefixOf xs = true
        · rw [if_pos hp, if_pos hp]
          rfl
        · rw [if_neg hp, if_neg hp]
          rfl
      · have hbeq : (p == x) = false :=
          beq_eq_false_iff_ne.mpr (fun hh => hx hh.symm)
        rw [if_neg hx, hbeq, Bool.false_and]
        rw [if_neg (by exact fun hh => Bool.false_ne_true hh)]

theorem replaceScanF_map_lit :
    ∀ (pat marker : List Char) (fuel : Nat) (s : List Char),
      replaceScanF (pat.map RAtom.lit) marker fuel s =
        replaceLitF pat marker fuel s
  | _, _, 0, _ => rfl
  | pat, marker, fuel + 1, [] => by
      rw [replaceScanF, replaceLitF, matchAtoms_map_lit]
      cases pat with
      | nil => rfl
      | cons p ps =>
          have : (p :: ps).isPrefixOf ([] : List Char) = false := rfl
          rw [this]
          simp
  | pat, marker, fuel + 1, x :: xs => by
      rw [replaceScanF, replaceLitF, matchAtoms_map_lit]
      cases pat with
      | nil =>
          rw [if_pos rfl]
          show marker ++ x :: replaceScanF ([].map RAtom.lit) marker fuel xs =
            marker ++ x :: replaceLitF [] marker fuel xs
          rw [replaceScanF_map_lit [] marker fuel xs]
      | cons p ps =>
          have hne : ¬(p :: ps = ([] : List Char)) := by simp
          by_cases hp : (p :: ps).isPrefixOf (x :: xs) = true
          · rw [if_pos hp, if_pos hp, if_neg hne]
            show marker ++ replaceScanF ((p :: ps).map RAtom.lit) marker fuel
                (List.drop ps.length xs) =
              marker ++ replaceLitF (p :: ps) marker fuel
                (List.drop ((p :: ps).length - 1) xs)
            rw [replaceScanF_map_lit (p :: ps) marker fuel (List.drop ps.length xs)]
            simp [Nat.succ_sub_one]
          · rw [if_neg hp, if_neg hp, if_neg hne]
            show x :: replaceScanF ((p :: ps).map RAtom.lit) marker fuel xs =
              x :: replaceLitF (p :: ps) marker fuel xs
            rw [replaceScanF_map_lit (p :: ps) marker fuel xs]

theorem redact_eq_replaceAllLit (cred text : String)
    (h : ∀ c ∈ cred.data, isRegexMeta c = false) :
    redact cred text = replaceAllLit cred "[REDACTED]" text := by
  unfold redact replaceRegexAll replaceAllLit
  rw [parseAtoms_all_lit cred.data h]
  show String.mk (replaceScanF (List.map RAtom.lit cred.data)
      ("[REDACTED]".data) (text.data.length + 1) text.data) =
    String.mk (replaceLitF cred.data ("[REDACTED]".data)
      (text.data.length + 1) text.data)
  rw [replaceScanF_map_lit]

/-- A variant of `isSubOf_append_middle` with right-associated appends. -/
theorem isSubOf_append_middle' (a p b : List Char) :
    isSubOf p (a ++ (p ++ b)) = true := by
  have := isSubOf_append_middle a p b
  rwa [List.append_assoc] at this

/-! ## Claim theorems -/

/-- C5: if the poll loop completes `maxAttempts` poll attempts with every
poll response delivered ok and judged non-terminal by the loop's guard, it
throws the poll-timeout error — whose message contains both the job kind
and the requestId as substrings — and returns no result (the outcome is an
error, with one request and one full sleep per attempt). -/
theorem pollLoop_exhausted_timeout (cfg : NyneConfig)
    (oracle : Nat → HttpResponse) (kind rid : String) (intervalMs m : Nat)
    (h : ∀ i, i < m → okNonTerminal (request cfg (oracle i)) = true) :
    pollLoop cfg oracle kind rid intervalMs 0 m =
      ⟨.error (.pollTimeout kind rid), m, m * intervalMs⟩ ∧
    isSubOf kind.data (ClientError.message (.pollTimeout kind rid)).data = true ∧
    isSubOf rid.data (ClientError.message (.pollTimeout kind rid)).data = true := by
  refine ⟨?_, ?_, ?_⟩
  · exact pollLoop_exhaust cfg oracle kind rid intervalMs m 0
      (fun i hi => by rw [Nat.zero_add]; exact h i hi)
  · have hmsg : (ClientError.message (.pollTimeout kind rid)).data =
        "Timed out waiting for ".data ++ (kind.data ++
          (" result (request_id=".data ++ (rid.data ++ ")".data))) := by
      simp only [ClientError.message, string_data_append, List.append_assoc]
    rw [hmsg]
    exact isSubOf_append_middle' _ _ _
  · have hmsg : (ClientError.message (.pollTimeout kind rid)).data =
        ("Timed out waiting for ".data ++ (kind.data ++
          " result (request_id=".data)) ++ (rid.data ++ ")".data) := by
      simp only [ClientError.message, string_data_append, List.append_assoc]
    rw [hmsg]
    exact isSubOf_append_middle' _ _ _

theorem pollLoop_exhausted_timeout_witness :
    (∀ i, i < 2 →
      okNonTerminal (request sampleCfg ((fun _ => processingResp) i)) = true) ∧
    pollLoop sampleCfg (fun _ => processingResp) "search" "r9" 700 0 2 =
      ⟨.error (.pollTimeout "search" "r9"), 2, 1400⟩ :=
  ⟨by decide, (pollLoop_exhausted_timeout sampleCfg (fun _ => processingResp)
    "search" "r9" 700 2 (by decide)).1⟩

/-- C6: with no override, `waitForResult` drives the loop with
`intervalMs = 2000` and `maxAttempts = ceil(defaultPollTimeout / 2000)`
(`(t + 2000 - 1) / 2000` on naturals), which is 30 attempts for the
default 60000 ms timeout, so interval times budget approximates the
configured total poll timeout. -/
theorem waitForResult_default_policy (cfg : NyneConfig)
    (oracle : Nat → HttpResponse) (rid kind : String) :
    waitForResult cfg oracle rid kind none =
      pollLoop cfg oracle kind rid 2000 0
        ((cfg.defaultPollTimeout + 2000 - 1) / 2000) ∧
    (cfg.defaultPollTimeout = 60000 →
      waitForResult cfg oracle rid kind none =
        pollLoop cfg oracle kind rid 2000 0 30) := by
  constructor
  · rfl
  · intro h
    show pollLoop cfg oracle kind rid 2000 0
      ((cfg.defaultPollTimeout + 2000 - 1) / 2000) =
      pollLoop cfg oracle kind rid 2000 0 30
    rw [h]

theorem waitForResult_default_policy_witness :
    NyneConfig.defaultPollTimeout sampleCfg = 60000 ∧
    waitForResult sampleCfg (fun _ => processingResp) "r9" "search" none =
      pollLoop sampleCfg (fun _ => processingResp) "search" "r9" 2000 0 30 :=
  ⟨rfl, (waitForResult_default_policy sampleCfg (fun _ => processingResp)
    "r9" "search").2 rfl⟩

/-- C9: a declared content type that does not include `application/json`
makes the transport fail with the non-JSON error carrying the HTTP status
and a body excerpt of at most 200 characters; the parsed body is never
consulted (the same error results for every possible `bodyJson`). -/
theorem request_content_type_guard (cfg : NyneConfig) (resp : HttpResponse)
    (h : contentTypeHasJson resp.contentType = false) :
    request cfg resp = .error (.nonJson resp.status (takeExcerpt resp.bodyText)) ∧
    (takeExcerpt resp.bodyText).length ≤ 200 ∧
    (∀ j2 : Json,
      request cfg ⟨resp.status, resp.contentType, resp.bodyText, j2⟩ =
        .error (.nonJson resp.status (takeExcerpt resp.bodyText))) := by
  refine ⟨?_, ?_, ?_⟩
  · simp [request, h]
  · show (resp.bodyText.data.take 200).length ≤ 200
    rw [List.length_take]
    exact min_le_left _ _
  · intro j2
    simp [request, h]

theorem request_content_type_guard_witness :
    contentTypeHasJson (some "text/html") = false ∧
    request sampleCfg ⟨502, some "text/html", "<html>oops</html>", .null⟩ =
      .error (.nonJson 502 "<html>oops</html>") :=
  ⟨rfl, (request_content_type_guard sampleCfg
    ⟨502, some "text/html", "<html>oops</html>", .null⟩ rfl).1⟩

/-- C10: an explicitly empty-string credential is not replaced by the
environment variable (`??` only falls through on a missing value), so
configuration with `apiKey: ""` or `apiSecret: ""` fails with the
missing-credentials error whatever the environment holds. -/
theorem parseConfig_empty_string_gate (env : String → Option String)
    (raw : RawConfig) (h : raw.apiKey = some "" ∨ raw.apiSecret = some "") :
    parseConfig env raw = .error .missingCredentials := by
  have hres : resolveEnvVars env "" = "" := rfl
  rcases h with h | h
  · simp [parseConfig, h, hres]
  · simp [parseConfig, h, hres]

theorem parseConfig_empty_string_gate_witness :
    RawConfig.apiKey ⟨some "", some "x", none, none⟩ = some "" ∧
    parseConfig (fun _ => some "realkey") ⟨some "", some "x", none, none⟩ =
      .error .missingCredentials :=
  ⟨rfl, parseConfig_empty_string_gate (fun _ => some "realkey")
    ⟨some "", some "x", none, none⟩ (Or.inl rfl)⟩

/-- C8 counterexample: with `linkedin_url` present but equal to the empty
string (a falsy value) and no `social_media_url`, the body is left
unchanged — `linkedin_url` is still present and `social_media_url` is
still absent — contradicting the claim that any supplied `linkedin_url`
with no `social_media_url` is aliased. -/
theorem enrich_empty_linkedin_cex :
    enrichBody ⟨none, some "", none, none, none, none⟩ =
      ⟨none, some "", none, none, none, none⟩ ∧
    ¬(EnrichParams.social_media_url
        (enrichBody ⟨none, some "", none, none, none, none⟩) = some "" ∧
      EnrichParams.linkedin_url
        (enrichBody ⟨none, some "", none, none, none, none⟩) = none) := by
  constructor
  · rfl
  · intro hcl
    exact Option.noConfusion hcl.2

/-- C8 amended: when `linkedin_url` is supplied *nonempty* and
`social_media_url` is absent, the submitted body carries the URL under
`social_media_url`, has no `linkedin_url` key, and passes every other
parameter through unchanged. -/
theorem enrichBody_alias (p : EnrichParams) (u : String)
    (hu : p.linkedin_url = some u) (hne : u ≠ "")
    (hs : p.social_media_url = none) :
    enrichBody p = ⟨p.email, none, p.phone, some u, p.newsfeed, p.lite_enrich⟩ := by
  unfold enrichBody
  rw [hu, hs]
  have h1 : truthyStr (some u) = true := by
    simp [truthyStr]
    exact hne
  have h2 : truthyStr none = false := rfl
  rw [h1, h2]
  simp

theorem enrichBody_alias_witness :
    enrichBody ⟨none, some "https://linkedin.com/in/x", none, none, none, none⟩ =
      ⟨none, none, none, some "https://linkedin.com/in/x", none, none⟩ :=
  enrichBody_alias ⟨none, some "https://linkedin.com/in/x", none, none, none, none⟩
    "https://linkedin.com/in/x" rfl (by decide) rfl

/-- C7: `parseConfig` resolves each credential as the explicit
configuration value, falling back (only when that value is missing) to the
same-named environment variable, falling back to the empty string, with
`$\x7bVAR\x7d` placeholders substituted from the environment by
`resolveEnvVars`; it fails with the missing-credentials error exactly when
one of the two resolved credentials is empty, and otherwise the returned
configuration carries the two resolved credentials. -/
theorem parseConfig_resolution (env : String → Option String) (raw : RawConfig) :
    (parseConfig env raw = .error .missingCredentials ↔
      resolveEnvVars env (raw.apiKey.getD ((env "NYNE_API_KEY").getD "")) = "" ∨
      resolveEnvVars env (raw.apiSecret.getD ((env "NYNE_API_SECRET").getD "")) = "") ∧
    (∀ c, parseConfig env raw = .ok c →
      c.apiKey = resolveEnvVars env (raw.apiKey.getD ((env "NYNE_API_KEY").getD "")) ∧
      c.apiSecret =
        resolveEnvVars env (raw.apiSecret.getD ((env "NYNE_API_SECRET").getD ""))) := by
  constructor
  · by_cases hk :
      resolveEnvVars env (raw.apiKey.getD ((env "NYNE_API_KEY").getD "")) = "" ∨
      resolveEnvVars env (raw.apiSecret.getD ((env "NYNE_API_SECRET").getD "")) = ""
    · simp [parseConfig, hk]
    · simp [parseConfig, hk]
  · intro c hc
    unfold parseConfig at hc
    by_cases hk :
      resolveEnvVars env (raw.apiKey.getD ((env "NYNE_API_KEY").getD "")) = "" ∨
      resolveEnvVars env (raw.apiSecret.getD ((env "NYNE_API_SECRET").getD "")) = ""
    · rw [if_pos hk] at hc
      exact absurd hc (by simp)
    · rw [if_neg hk] at hc
      have he := Except.ok.inj hc
      constructor
      · rw [← he]
      · rw [← he]

theorem parseConfig_resolution_witness :
    parseConfig envKeyed rawPlaceholder = .ok ⟨"abc", "sec", false, 60000⟩ ∧
    NyneConfig.apiKey ⟨"abc", "sec", false, 60000⟩ =
      resolveEnvVars envKeyed "$\x7bNYNE_API_KEY\x7d" := by
  have hok : parseConfig envKeyed rawPlaceholder =
      .ok ⟨"abc", "sec", false, 60000⟩ := by decide
  exact ⟨hok,
    ((parseConfig_resolution envKeyed rawPlaceholder).2
      ⟨"abc", "sec", false, 60000⟩ hok).1⟩

/-- Lemma on `submitThenPoll` with a truthy `request_id`: the poller is entered with
the id and the kind's options. -/
theorem submitThenPoll_some (cfg : NyneConfig) (sr : HttpResponse)
    (po : Nat → HttpResponse) (kind : String) (options : Option PollOptions)
    (postRes rid : Json) (h1 : request cfg sr = .ok postRes)
    (h2 : requestIdOf postRes = some rid) :
    submitThenPoll cfg sr po kind options =
      waitForResult cfg po (jsToString rid) kind options := by
  unfold submitThenPoll
  rw [h1]
  show (match requestIdOf postRes with
    | none => (⟨Except.ok postRes, 0, 0⟩ : OpOutcome)
    | some r => waitForResult cfg po (jsToString r) kind options) =
    waitForResult cfg po (jsToString rid) kind options
  rw [h2]

/-- Lemma on `submitThenPoll` with no (or falsy) `request_id`: the submission
response is returned unchanged, no poll request, no sleep. -/
theorem submitThenPoll_none (cfg : NyneConfig) (sr : HttpResponse)
    (po : Nat → HttpResponse) (kind : String) (options : Option PollOptions)
    (postRes : Json) (h1 : request cfg sr = .ok postRes)
    (h2 : requestIdOf postRes = none) :
    submitThenPoll cfg sr po kind options = ⟨.ok postRes, 0, 0⟩ := by
  unfold submitThenPoll
  rw [h1]
  show (match requestIdOf postRes with
    | none => (⟨Except.ok postRes, 0, 0⟩ : OpOutcome)
    | some r => waitForResult cfg po (jsToString r) kind options) =
    ⟨Except.ok postRes, 0, 0⟩
  rw [h2]

/-- The poll loop's behaviour depends on the configuration only through
the credentials (used by the transport on each poll request): the debug
flag and the timeout play no role once interval and budget are fixed. -/
theorem pollLoop_creds_only (k s : String) (d1 d2 : Bool) (t1 t2 : Nat)
    (oracle : Nat → HttpResponse) (kind rid : String) (intervalMs : Nat) :
    ∀ (n a : Nat),
      pollLoop ⟨k, s, d1, t1⟩ oracle kind rid intervalMs a n =
        pollLoop ⟨k, s, d2, t2⟩ oracle kind rid intervalMs a n
  | 0, _ => rfl
  | n + 1, a => by
      have hreq : request ⟨k, s, d1, t1⟩ (oracle a) =
          request ⟨k, s, d2, t2⟩ (oracle a) := rfl
      simp only [pollLoop]
      rw [hreq]
      cases hr : request ⟨k, s, d2, t2⟩ (oracle a) with
      | error e => rfl
      | ok res =>
          by_cases ht : isTerminalRes res = true
          · simp [ht]
          · simp only [Bool.not_eq_true] at ht
            simp [ht,
              pollLoop_creds_only k s d1 d2 t1 t2 oracle kind rid intervalMs n (a + 1)]

/-- C3: when the submission response's nested data mapping contains no
`request_id`, every job-kind operation returns the submission response
unchanged — zero poll requests, zero sleep — whatever the poll oracle
would have answered. -/
theorem missing_requestId_no_poll (cfg : NyneConfig)
    (pollOracle : Nat → HttpResponse) (postRes : Json)
    (hrid : dataRequestId postRes = none) :
    (∀ submitResp, request cfg submitResp = .ok postRes →
      searchPeople cfg submitResp pollOracle = ⟨.ok postRes, 0, 0⟩ ∧
      getPersonInterests cfg submitResp pollOracle = ⟨.ok postRes, 0, 0⟩ ∧
      searchArticles cfg submitResp pollOracle = ⟨.ok postRes, 0, 0⟩ ∧
      deepResearch cfg submitResp pollOracle = ⟨.ok postRes, 0, 0⟩ ∧
      competitorEngagements cfg submitResp pollOracle = ⟨.ok postRes, 0, 0⟩ ∧
      getInteractions cfg submitResp pollOracle = ⟨.ok postRes, 0, 0⟩) ∧
    (∀ (params : EnrichParams) (net : EnrichParams → HttpResponse),
      request cfg (net (enrichBody params)) = .ok postRes →
      enrichPerson cfg params net pollOracle = ⟨.ok postRes, 0, 0⟩) := by
  have hnone := requestIdOf_of_dataRequestId_none postRes hrid
  constructor
  · intro sr h1
    exact ⟨submitThenPoll_none cfg sr pollOracle _ _ postRes h1 hnone,
      submitThenPoll_none cfg sr pollOracle _ _ postRes h1 hnone,
      submitThenPoll_none cfg sr pollOracle _ _ postRes h1 hnone,
      submitThenPoll_none cfg sr pollOracle _ _ postRes h1 hnone,
      submitThenPoll_none cfg sr pollOracle _ _ postRes h1 hnone,
      submitThenPoll_none cfg sr pollOracle _ _ postRes h1 hnone⟩
  · intro params net h1
    exact submitThenPoll_none cfg (net (enrichBody params)) pollOracle _ _
      postRes h1 hnone

theorem missing_requestId_no_poll_witness :
    dataRequestId
      (Json.obj (.cons "data" (.obj (.cons "status" (.str "completed") .nil)) .nil)) =
      none ∧
    searchPeople sampleCfg completedResp (fun _ => processingResp) =
      ⟨.ok (.obj (.cons "data" (.obj (.cons "status" (.str "completed") .nil)) .nil)),
        0, 0⟩ :=
  ⟨rfl, ((missing_requestId_no_poll sampleCfg (fun _ => processingResp)
    (.obj (.cons "data" (.obj (.cons "status" (.str "completed") .nil)) .nil))
    rfl).1 completedResp rfl).1⟩

/-- C4: `deepResearch` drives its poll loop with interval 5000 ms and 120
attempts, independent of the configured `defaultPollTimeout` (changing the
timeout changes nothing about `deepResearch`); every other polled kind,
when a request id is present, enters the loop with the default policy —
interval 2000 ms and `ceil(defaultPollTimeout / 2000)` attempts. -/
theorem deepResearch_policy_override :
    (∀ (cfg : NyneConfig) (t : Nat) (submitResp : HttpResponse)
        (pollOracle : Nat → HttpResponse),
      deepResearch ⟨cfg.apiKey, cfg.apiSecret, cfg.debug, t⟩ submitResp pollOracle =
        deepResearch cfg submitResp pollOracle) ∧
    (∀ (cfg : NyneConfig) (submitResp : HttpResponse)
        (pollOracle : Nat → HttpResponse) (postRes rid : Json),
      request cfg submitResp = .ok postRes → requestIdOf postRes = some rid →
      deepResearch cfg submitResp pollOracle =
        pollLoop cfg pollOracle "deep-research" (jsToString rid) 5000 0 120) ∧
    (∀ (cfg : NyneConfig) (submitResp : HttpResponse)
        (pollOracle : Nat → HttpResponse) (postRes rid : Json),
      request cfg submitResp = .ok postRes → requestIdOf postRes = some rid →
      searchPeople cfg submitResp pollOracle =
        pollLoop cfg pollOracle "search" (jsToString rid) 2000 0
          ((cfg.defaultPollTimeout + 2000 - 1) / 2000) ∧
      getPersonInterests cfg submitResp pollOracle =
        pollLoop cfg pollOracle "interests" (jsToString rid) 2000 0
          ((cfg.defaultPollTimeout + 2000 - 1) / 2000) ∧
      searchArticles cfg submitResp pollOracle =
        pollLoop cfg pollOracle "articlesearch" (jsToString rid) 2000 0
          ((cfg.defaultPollTimeout + 2000 - 1) / 2000) ∧
      competitorEngagements cfg submitResp pollOracle =
        pollLoop cfg pollOracle "competitor-engagements" (jsToString rid) 2000 0
          ((cfg.defaultPollTimeout + 2000 - 1) / 2000) ∧
      getInteractions cfg submitResp pollOracle =
        pollLoop cfg pollOracle "interactions" (jsToString rid) 2000 0
          ((cfg.defaultPollTimeout + 2000 - 1) / 2000)) ∧
    (∀ (cfg : NyneConfig) (params : EnrichParams)
        (net : EnrichParams → HttpResponse) (pollOracle : Nat → HttpResponse)
        (postRes rid : Json),
      request cfg (net (enrichBody params)) = .ok postRes →
      requestIdOf postRes = some rid →
      enrichPerson cfg params net pollOracle =
        pollLoop cfg pollOracle "enrichment" (jsToString rid) 2000 0
          ((cfg.defaultPollTimeout + 2000 - 1) / 2000)) := by
  refine ⟨?_, ?_, ?_, ?_⟩
  · intro cfg t sr po
    obtain ⟨k, s, d, tm⟩ := cfg
    show submitThenPoll ⟨k, s, d, t⟩ sr po "deep-research"
        (some ⟨some 5000, some 120⟩) =
      submitThenPoll ⟨k, s, d, tm⟩ sr po "deep-research"
        (some ⟨some 5000, some 120⟩)
    have hreq : request ⟨k, s, d, t⟩ sr = request ⟨k, s, d, tm⟩ sr := rfl
    cases hr : request ⟨k, s, d, tm⟩ sr with
    | error e =>
        have h1 : request ⟨k, s, d, t⟩ sr = .error e := hreq.trans hr
        unfold submitThenPoll
        rw [h1, hr]
    | ok postRes =>
        have h1 : request ⟨k, s, d, t⟩ sr = .ok postRes := hreq.trans hr
        cases hrid : requestIdOf postRes with
        | none =>
            rw [submitThenPoll_none ⟨k, s, d, t⟩ sr po _ _ postRes h1 hrid,
              submitThenPoll_none ⟨k, s, d, tm⟩ sr po _ _ postRes hr hrid]
        | some rid =>
            rw [submitThenPoll_some ⟨k, s, d, t⟩ sr po _ _ postRes rid h1 hrid,
              submitThenPoll_some ⟨k, s, d, tm⟩ sr po _ _ postRes rid hr hrid]
            show pollLoop ⟨k, s, d, t⟩ po "deep-research" (jsToString rid)
                5000 0 120 =
              pollLoop ⟨k, s, d, tm⟩ po "deep-research" (jsToString rid) 5000 0 120
            exact pollLoop_creds_only k s d d t tm po "deep-research"
              (jsToString rid) 5000 120 0
  · intro cfg sr po postRes rid h1 h2
    exact (submitThenPoll_some cfg sr po "deep-research"
      (some ⟨some 5000, some 120⟩) postRes rid h1 h2).trans rfl
  · intro cfg sr po postRes rid h1 h2
    exact ⟨(submitThenPoll_some cfg sr po "search" none postRes rid h1 h2).trans rfl,
      (submitThenPoll_some cfg sr po "interests" none postRes rid h1 h2).trans rfl,
      (submitThenPoll_some cfg sr po "articlesearch" none postRes rid h1 h2).trans rfl,
      (submitThenPoll_some cfg sr po "competitor-engagements" none postRes rid
        h1 h2).trans rfl,
      (submitThenPoll_some cfg sr po "interactions" none postRes rid h1 h2).trans rfl⟩
  · intro cfg params net po postRes rid h1 h2
    exact (submitThenPoll_some cfg (net (enrichBody params)) po "enrichment"
      none postRes rid h1 h2).trans rfl

theorem deepResearch_policy_override_witness :
    deepResearch ⟨NyneConfig.apiKey sampleCfg, NyneConfig.apiSecret sampleCfg,
        NyneConfig.debug sampleCfg, 999⟩
        ⟨200, some "application/json", "",
          .obj (.cons "data" (.obj (.cons "request_id" (.str "r7") .nil)) .nil)⟩
        (fun _ => completedResp) =
      deepResearch sampleCfg
        ⟨200, some "application/json", "",
          .obj (.cons "data" (.obj (.cons "request_id" (.str "r7") .nil)) .nil)⟩
        (fun _ => completedResp) ∧
    deepResearch sampleCfg
        ⟨200, some "application/json", "",
          .obj (.cons "data" (.obj (.cons "request_id" (.str "r7") .nil)) .nil)⟩
        (fun _ => completedResp) =
      pollLoop sampleCfg (fun _ => completedResp) "deep-research" "r7" 5000 0 120 :=
  ⟨deepResearch_policy_override.1 sampleCfg 999
      ⟨200, some "application/json", "",
        .obj (.cons "data" (.obj (.cons "request_id" (.str "r7") .nil)) .nil)⟩
      (fun _ => completedResp),
    deepResearch_policy_override.2.1 sampleCfg
      ⟨200, some "application/json", "",
        .obj (.cons "data" (.obj (.cons "request_id" (.str "r7") .nil)) .nil)⟩
      (fun _ => completedResp)
      (.obj (.cons "data" (.obj (.cons "request_id" (.str "r7") .nil)) .nil))
      (.str "r7") rfl rfl⟩

/-- C1 amended: one iteration of the poll loop returns the full response
immediately exactly when its extracted status is present, truthy, and not
strictly equal to `queued`, `processing` or `pending`; when the status is
absent, falsy, or one of those three in-flight values, the loop sleeps
`intervalMs` and continues with the next attempt (in particular an absent
status does NOT return — it keeps polling). -/
theorem pollLoop_terminal_step (cfg : NyneConfig) (oracle : Nat → HttpResponse)
    (kind rid : String) (intervalMs a n : Nat) (res : Json)
    (hreq : request cfg (oracle a) = .ok res) :
    (isTerminalRes res = true →
      pollLoop cfg oracle kind rid intervalMs a (n + 1) = ⟨.ok res, 1, 0⟩) ∧
    (isTerminalRes res = false →
      pollLoop cfg oracle kind rid intervalMs a (n + 1) =
        ⟨(pollLoop cfg oracle kind rid intervalMs (a + 1) n).result,
         (pollLoop cfg oracle kind rid intervalMs (a + 1) n).polled + 1,
         intervalMs + (pollLoop cfg oracle kind rid intervalMs (a + 1) n).sleptMs⟩) ∧
    (statusOf res = none → isTerminalRes res = false) ∧
    (isTerminalRes res = true ↔ ∃ s, statusOf res = some s ∧
      jsTruthy s = true ∧ isStrEq s "queued" = false ∧
      isStrEq s "processing" = false ∧ isStrEq s "pending" = false) := by
  refine ⟨?_, ?_, ?_, ?_⟩
  · intro ht
    simp [pollLoop, hreq, ht]
  · intro ht
    simp [pollLoop, hreq, ht]
  · intro hs
    simp [isTerminalRes, hs]
  · unfold isTerminalRes
    cases hs : statusOf res with
    | none => simp
    | some s => simp [and_assoc]

theorem pollLoop_terminal_step_witness :
    request sampleCfg ((fun _ => completedResp) 0) =
      .ok (.obj (.cons "data" (.obj (.cons "status" (.str "completed") .nil)) .nil)) ∧
    isTerminalRes
      (.obj (.cons "data" (.obj (.cons "status" (.str "completed") .nil)) .nil)) =
      true ∧
    pollLoop sampleCfg (fun _ => completedResp) "search" "r1" 2000 0 1 =
      ⟨.ok (.obj (.cons "data" (.obj (.cons "status" (.str "completed") .nil)) .nil)),
        1, 0⟩ :=
  ⟨rfl, rfl,
    (pollLoop_terminal_step sampleCfg (fun _ => completedResp) "search" "r1" 2000 0 0
      (.obj (.cons "data" (.obj (.cons "status" (.str "completed") .nil)) .nil))
      rfl).1 rfl⟩

/-- C1 counterexample: a poll response whose data mapping has no status is
NOT returned immediately, contrary to the claim — the loop sleeps and
keeps polling, here exhausting its single allowed attempt and timing out
instead of returning the response. -/
theorem absent_status_polls_again_cex :
    waitForResult sampleCfg (fun _ => noStatusResp) "r1" "search"
        (some ⟨some 1000, some 1⟩) =
      ⟨.error (.pollTimeout "search" "r1"), 1, 1000⟩ ∧
    statusOf (.obj (.cons "data" (.obj (.cons "result" (.str "done") .nil)) .nil)) =
      none ∧
    (waitForResult sampleCfg (fun _ => noStatusResp) "r1" "search"
        (some ⟨some 1000, some 1⟩)).result ≠
      .ok (.obj (.cons "data" (.obj (.cons "result" (.str "done") .nil)) .nil)) := by
  refine ⟨rfl, rfl, ?_⟩
  intro hcl
  exact Except.noConfusion hcl

/-- C2 amended: the transport redacts the serialized error body by global
regular-expression replacement, using first the API key and then the API
secret as the pattern and `[REDACTED]` as the replacement; for credentials
containing no regex metacharacters this replaces every verbatim occurrence
of either credential (literal leftmost global replacement).  The
counterexample shows the claim's stronger "the message contains no
occurrence of a credential" form fails for metacharacter credentials. -/
theorem apiError_redaction_literal (cfg : NyneConfig) (resp : HttpResponse)
    (hct : contentTypeHasJson resp.contentType = true)
    (hok : fetchOk resp.status = false)
    (hkey : ∀ c ∈ cfg.apiKey.data, isRegexMeta c = false)
    (hsec : ∀ c ∈ cfg.apiSecret.data, isRegexMeta c = false) :
    request cfg resp = .error (.apiError resp.status
      (replaceAllLit cfg.apiSecret "[REDACTED]"
        (replaceAllLit cfg.apiKey "[REDACTED]" resp.bodyJson.stringify))) := by
  simp only [request, hct, hok]
  rw [redact_eq_replaceAllLit cfg.apiKey _ hkey,
    redact_eq_replaceAllLit cfg.apiSecret _ hsec]
  simp

theorem apiError_redaction_literal_witness :
    contentTypeHasJson (some "application/json") = true ∧
    fetchOk 400 = false ∧
    request sampleCfg ⟨400, some "application/json", "",
        .obj (.cons "msg" (.str "use key123 and sec456 here") .nil)⟩ =
      .error (.apiError 400
        (replaceAllLit "sec456" "[REDACTED]"
          (replaceAllLit "key123" "[REDACTED]"
            (Json.stringify
              (.obj (.cons "msg" (.str "use key123 and sec456 here") .nil)))))) :=
  ⟨rfl, rfl,
    apiError_redaction_literal sampleCfg
      ⟨400, some "application/json", "",
        .obj (.cons "msg" (.str "use key123 and sec456 here") .nil)⟩
      rfl rfl (by decide) (by decide)⟩

/-- C2 counterexample: with apiKey `a+a`, the redaction builds the regex
`/a+a/g`, which does not match the literal text `a+a`, so the credential
survives verbatim: the ApiError message contains the apiKey as a
substring, and no `[REDACTED]` marker replaced it. -/
theorem apiError_regex_pattern_cex :
    request ⟨"a+a", "zz9", false, 60000⟩
        ⟨400, some "application/json", "",
          .obj (.cons "error" (.str "bad key a+a here") .nil)⟩ =
      .error (.apiError 400 "\x7b\"error\":\"bad key a+a here\"\x7d") ∧
    isSubOf "a+a".data
      (ClientError.message
        (.apiError 400 "\x7b\"error\":\"bad key a+a here\"\x7d")).data = true := by
  exact ⟨rfl, rfl⟩

end Nyne
